import Mathlib

/-
  Verification development for the Arqu/dataset repository
  (content-addressed persistence engine for versioned datasets).

  Shallow embedding notes:
  - Go strings are modelled by Lean String, except in the commit-title
    normalizer where Go byte indexing is modelled over List Char.
  - datastore.Key (an external dependency) is modelled as the raw address
    string; only emptiness and equality of keys are observable in the
    claims under study.
  - Go int is modelled by Int where a zero-check is the only use.
  - encoding/json is modelled at the value level: a marshalled sub-document
    is either a bare address string or an object holding exactly the fields
    of the private shadow struct (which drops the address), mirroring the
    dual string/object encoding of the source. Byte-level serialization
    (field ordering on the wire) is below the granularity of the claims.
-/

/- ===================== DataFormat (src/dataFormat.go) ===================== -/

/-- DataFormat represents different types of data (src/dataFormat.go). -/
inductive DataFormat where
  | UnknownDataFormat
  | CsvDataFormat
  | JsonDataFormat
  | JsonArrayDataFormat
  | XmlDataFormat
  | XlsDataFormat
deriving DecidableEq, Repr

/-- String implements the stringer interface for DataFormat
(src/dataFormat.go lines 22-38). The Go map lookup returns the empty
string for UnknownDataFormat (present in the map) and for any value
missing from the map. -/
def DataFormat.string : DataFormat → String
  | .UnknownDataFormat => ""
  | .CsvDataFormat => "csv"
  | .JsonDataFormat => "json"
  | .JsonArrayDataFormat => "jsona"
  | .XmlDataFormat => "xml"
  | .XlsDataFormat => "xls"

/-- ParseDataFormatString (src/dataFormat.go lines 40-61): a fixed lookup
table; on a miss the error is set and the format defaults to
UnknownDataFormat. The result pairs the format with an optional error
message, mirroring the (df, err) return of the Go function. -/
def ParseDataFormatString (s : String) : DataFormat × Option String :=
  if s = "" then (.UnknownDataFormat, none)
  else if s = ".csv" ∨ s = "csv" then (.CsvDataFormat, none)
  else if s = ".json" ∨ s = "json" then (.JsonDataFormat, none)
  else if s = ".jsona" ∨ s = "jsona" then (.JsonArrayDataFormat, none)
  else if s = ".xml" ∨ s = "xml" then (.XmlDataFormat, none)
  else if s = ".xls" ∨ s = "xls" then (.XlsDataFormat, none)
  else (.UnknownDataFormat, some ("invalid DataFormat " ++ s))

/-- MarshalJSON for DataFormat (src/dataFormat.go lines 63-69). For
UnknownDataFormat the Go method returns (nil, nil); when such a value is
embedded in an enclosing object, encoding/json surfaces this as a marshal
error, which we model as none. Otherwise the quoted string form is
produced. -/
def DataFormat.MarshalJSON (f : DataFormat) : Option String :=
  if f = .UnknownDataFormat then none else some f.string

/- ===================== Structure (src/structure.go) ===================== -/

/-- Kind tag constant for structures. The Kind type and its constants live
in repo code outside src; only the fact that the constant is a non-empty
string is observable in the embedded functions. -/
def KindStructure : String := "st:structure"

/-- Structure (src/structure.go lines 18-47). compression.Type and the
jsonschema.RootSchema pointer are external dependencies, modelled as an
opaque string (zero value "") and an opaque optional blob respectively.
FormatConfig is modelled by its Map() image, an optional association
list. -/
structure Structure where
  path : String := ""
  checksum : String := ""
  compression : String := ""
  encoding : String := ""
  entries : Int := 0
  format : DataFormat := .UnknownDataFormat
  formatConfig : Option (List (String × String)) := none
  kind : String := ""
  length : Int := 0
  schema : Option String := none
deriving DecidableEq, Repr

/-- The private shadow struct _structure (src/structure.go lines 95-105):
the object form of a marshalled Structure. It has no path field, so the
bound address is dropped from the object body. -/
structure StructureObj where
  checksum : String
  compression : String
  encoding : String
  entries : Int
  format : DataFormat
  formatConfig : Option (List (String × String))
  kind : String
  length : Int
  schema : Option String
deriving DecidableEq, Repr

/-- A marshalled Structure: either the bare address string or the object
form. -/
inductive StructureJSON where
  | str (s : String)
  | obj (o : StructureObj)
deriving DecidableEq, Repr

/-- Structure.MarshalJSON (src/structure.go lines 107-134). The bare-string
branch is guarded by a bound path, empty Encoding and nil Schema (not by
IsEmpty). In the object branch the kind tag defaults to KindStructure and
the Format field (which has no omitempty tag) fails to marshal when it is
UnknownDataFormat, failing the whole encode. -/
def Structure.MarshalJSON (s : Structure) : Option StructureJSON :=
  if s.path ≠ "" ∧ s.encoding = "" ∧ s.schema = none then
    some (.str s.path)
  else
    match DataFormat.MarshalJSON s.format with
    | none => none
    | some _ =>
      some (.obj {
        checksum := s.checksum
        compression := s.compression
        encoding := s.encoding
        entries := s.entries
        format := s.format
        formatConfig := s.formatConfig
        kind := if s.kind = "" then KindStructure else s.kind
        length := s.length
        schema := s.schema })

/-- Modelled from the spec: ParseFormatConfigMap is repo code missing from
src (only its call site in Structure.UnmarshalJSON is present). Per the
round-trip contract of the spec (section 8, decode of encode is the
identity), it is modelled as the exact inverse of FormatConfig.Map, i.e.
the identity on the configuration map. -/
def ParseFormatConfigMap (_f : DataFormat) (m : List (String × String)) :
    Option (List (String × String)) :=
  some m

/-- Structure.UnmarshalJSON (src/structure.go lines 136-172). A JSON string
decodes to a reference-only Structure bound to that address; an object
decodes field by field with the path left empty, parsing the format
configuration when present. -/
def Structure.UnmarshalJSON (j : StructureJSON) : Option Structure :=
  match j with
  | .str s => some { path := s }
  | .obj o =>
    match o.formatConfig with
    | none =>
      some { path := "", checksum := o.checksum, compression := o.compression,
             encoding := o.encoding, entries := o.entries, format := o.format,
             formatConfig := none, kind := o.kind, length := o.length,
             schema := o.schema }
    | some m =>
      match ParseFormatConfigMap o.format m with
      | none => none
      | some cfg =>
        some { path := "", checksum := o.checksum, compression := o.compression,
               encoding := o.encoding, entries := o.entries, format := o.format,
               formatConfig := some cfg, kind := o.kind, length := o.length,
               schema := o.schema }

/-- Structure.IsEmpty (src/structure.go lines 174-184): true when every
field other than the internal path and the kind tag is at its zero
value. -/
def Structure.IsEmpty (s : Structure) : Bool :=
  s.checksum == "" && s.compression == "" && s.encoding == "" &&
  s.entries == 0 && s.format == .UnknownDataFormat &&
  s.formatConfig == none && s.length == 0 && s.schema == none

/- ===================== Transform (src/transform.go) ===================== -/

/-- Kind tag constant for transforms (repo code outside src; non-empty). -/
def KindTransform : String := "tf:transform"

/-- Transform (src/transform.go lines 14-43). The Syntax field is named syn
here; Config and Resources are Go maps whose contents are opaque to the
claims, modelled as optional association lists (None is the Go nil
map). -/
structure Transform where
  path : String := ""
  syn : String := ""
  appVersion : String := ""
  data : String := ""
  struc : Option Structure := none
  config : Option (List (String × String)) := none
  resources : Option (List (String × String)) := none
deriving DecidableEq, Repr

/-- Transform.IsEmpty (src/transform.go lines 56-59): the code checks only
Data and Resources. -/
def Transform.IsEmpty (q : Transform) : Bool :=
  q.data == "" && q.resources == none

/-- A marshalled Transform (shadow struct _transform, src/transform.go
lines 101-108): either the bare address string or the object form, which
has no path field. -/
inductive TransformJSON where
  | str (s : String)
  | obj (appVersion : String) (config : Option (List (String × String)))
        (data : String) (resources : Option (List (String × String)))
        (struc : Option StructureJSON) (syn : String)
deriving DecidableEq, Repr

/-- Transform.MarshalJSON (src/transform.go lines 110-125): bare string
when the path is bound and IsEmpty holds; otherwise the object form, with
a nested Structure marshalled through its own MarshalJSON (whose failure
fails the whole encode). -/
def Transform.MarshalJSON (q : Transform) : Option TransformJSON :=
  if q.path ≠ "" ∧ q.IsEmpty = true then
    some (.str q.path)
  else
    match q.struc with
    | none => some (.obj q.appVersion q.config q.data q.resources none q.syn)
    | some st =>
      match st.MarshalJSON with
      | none => none
      | some sj => some (.obj q.appVersion q.config q.data q.resources (some sj) q.syn)

/-- TransformB models the alternate revision of the Transform type found in
src/unnamed/part_000 (lines 18-46), which carries the Qri kind tag. -/
structure TransformB where
  path : String := ""
  qri : String := ""
  syn : String := ""
  appVersion : String := ""
  data : String := ""
  struc : Option Structure := none
  config : Option (List (String × String)) := none
  resources : Option (List (String × String)) := none
deriving DecidableEq, Repr

/-- Transform.IsEmpty of the alternate revision (src/unnamed/part_000 lines
59-67): checks every field except the internal path and the Qri kind
tag. -/
def TransformB.IsEmpty (q : TransformB) : Bool :=
  q.data == "" && q.resources == none && q.syn == "" &&
  q.appVersion == "" && q.struc == none && q.config == none

/-- A marshalled TransformB (shadow struct _transform of part_000, lines
128-136): the object form additionally carries the qri kind tag. -/
inductive TransformBJSON where
  | str (s : String)
  | obj (appVersion : String) (config : Option (List (String × String)))
        (data : String) (qri : String)
        (resources : Option (List (String × String)))
        (struc : Option StructureJSON) (syn : String)
deriving DecidableEq, Repr

/-- Transform.MarshalJSON of the alternate revision (src/unnamed/part_000
lines 138-163): bare string when the path is bound and IsEmpty holds;
otherwise MarshalJSONObject, where the qri tag defaults to
KindTransform. -/
def TransformB.MarshalJSON (q : TransformB) : Option TransformBJSON :=
  if q.path ≠ "" ∧ q.IsEmpty = true then
    some (.str q.path)
  else
    let kind := if q.qri = "" then KindTransform else q.qri
    match q.struc with
    | none => some (.obj q.appVersion q.config q.data kind q.resources none q.syn)
    | some st =>
      match st.MarshalJSON with
      | none => none
      | some sj =>
        some (.obj q.appVersion q.config q.data kind q.resources (some sj) q.syn)

/- ===================== C10 theorem ===================== -/

/-- C10: for every defined DataFormat value f, ParseDataFormatString of
f.string returns f with no error: the data-format string representation
round-trips through parsing. -/
theorem dataFormat_string_roundtrip (f : DataFormat) :
    ParseDataFormatString (DataFormat.string f) = (f, none) := by
  cases f <;> rfl

/- ===================== C1 theorems ===================== -/

/-- C1 counterexample: a Structure bound to an address and carrying a
non-zero Checksum (so IsEmpty is false) still encodes as the bare address
string, because Structure.MarshalJSON guards the string branch only on
Encoding and Schema, refuting the claimed if-and-only-if at this concrete
input. -/
theorem structure_bare_string_despite_not_empty :
    Structure.MarshalJSON { path := "/x", checksum := "abc" } = some (.str "/x") ∧
    Structure.IsEmpty { path := "/x", checksum := "abc" } = false := by
  exact ⟨rfl, rfl⟩

/-- C1 amended: the bare-string encoding is produced exactly when the
address is bound and the type-specific guard of the source holds: for
Structure the guard is empty Encoding and nil Schema (so other populated
fields such as a checksum do not force the object form), while for both
revisions of Transform the guard is the IsEmpty predicate of that revision; in
every other case the encoding is the object form (or an encode error),
with the address dropped from the object body. -/
theorem subdocument_bare_string_guards :
    (∀ s : Structure,
      s.MarshalJSON = some (.str s.path) ↔
        s.path ≠ "" ∧ s.encoding = "" ∧ s.schema = none) ∧
    (∀ q : Transform,
      q.MarshalJSON = some (.str q.path) ↔ q.path ≠ "" ∧ q.IsEmpty = true) ∧
    (∀ q : TransformB,
      q.MarshalJSON = some (.str q.path) ↔ q.path ≠ "" ∧ q.IsEmpty = true) := by
  refine ⟨fun s => ?_, fun q => ?_, fun q => ?_⟩
  · unfold Structure.MarshalJSON
    split
    · next h => exact iff_of_true rfl h
    · next h =>
      refine iff_of_false ?_ h
      cases DataFormat.MarshalJSON s.format <;> simp
  · unfold Transform.MarshalJSON
    split
    · next h => exact iff_of_true rfl h
    · next h =>
      refine iff_of_false ?_ h
      cases q.struc with
      | none => simp
      | some st => cases hm : st.MarshalJSON <;> simp [hm]
  · unfold TransformB.MarshalJSON
    split
    · next h => exact iff_of_true rfl h
    · next h =>
      refine iff_of_false ?_ h
      cases q.struc with
      | none => simp
      | some st => cases hm : st.MarshalJSON <;> simp [hm]

/- ===================== C2 theorems ===================== -/

/-- C2 counterexample: the Structure whose only non-zero field is a csv
Format (no bound path, Kind at its zero value) does not survive a
marshal/unmarshal round trip: the object form canonicalizes the empty
Kind to KindStructure, so the decoded value differs from the original. -/
theorem structure_roundtrip_fails_on_kind :
    (Structure.MarshalJSON { format := .CsvDataFormat }).bind Structure.UnmarshalJSON
      = some { format := .CsvDataFormat, kind := KindStructure } ∧
    ({ format := .CsvDataFormat, kind := KindStructure } : Structure)
      ≠ { format := .CsvDataFormat } := by
  refine ⟨rfl, by decide⟩

/-- C2 amended: the round trip is the identity only up to reference
collapsing and kind canonicalization. When the bare-string guard holds
(bound path, empty Encoding, nil Schema) decoding the encoding yields the
pure reference to that path, discarding any other populated field;
otherwise (and whenever the Format marshals, i.e. is not
UnknownDataFormat) decoding the object form restores every field except
that the bound address is dropped and an empty Kind becomes
KindStructure. The reference shortcut of the claim does hold: decoding
the JSON string X yields a Structure that IsEmpty with path X. -/
theorem structure_roundtrip_amended (v : Structure) :
    (v.path ≠ "" ∧ v.encoding = "" ∧ v.schema = none →
      (v.MarshalJSON).bind Structure.UnmarshalJSON = some { path := v.path }) ∧
    (¬(v.path ≠ "" ∧ v.encoding = "" ∧ v.schema = none) →
      v.format ≠ .UnknownDataFormat →
      (v.MarshalJSON).bind Structure.UnmarshalJSON =
        some { v with path := "",
                      kind := if v.kind = "" then KindStructure else v.kind }) ∧
    (Structure.UnmarshalJSON (.str "X") = some { path := "X" } ∧
      Structure.IsEmpty { path := "X" } = true ∧
      ({ path := "X" } : Structure).path = "X") := by
  obtain ⟨p, cst, cmp, enc, ent, fmt, fc, k, len, sch⟩ := v
  refine ⟨fun h => ?_, fun h hf => ?_, rfl, rfl, rfl⟩
  · simp only [Structure.MarshalJSON]
    rw [if_pos h]
    rfl
  · simp only [Structure.MarshalJSON]
    rw [if_neg h]
    simp only [DataFormat.MarshalJSON, if_neg hf]
    cases fc <;> simp [Structure.UnmarshalJSON, ParseFormatConfigMap]

/-- Witness for the amended C2 theorem: a pure reference round-trips to
itself, and an unbound csv Structure with a checksum and canonical kind
round-trips to itself. -/
theorem structure_roundtrip_amended_witness :
    ((Structure.MarshalJSON { path := "/x" }).bind Structure.UnmarshalJSON
      = some { path := "/x" }) ∧
    ((Structure.MarshalJSON { checksum := "c", format := .CsvDataFormat, kind := KindStructure }).bind Structure.UnmarshalJSON
      = some { checksum := "c", format := .CsvDataFormat, kind := KindStructure }) := by
  constructor
  · exact (structure_roundtrip_amended { path := "/x" }).1 (by decide)
  · have h := (structure_roundtrip_amended { checksum := "c", format := .CsvDataFormat, kind := KindStructure }).2.1
      (by decide) (by decide)
    simpa using h

/- ===================== C8 theorem ===================== -/

/-- C8: evaluation at the failing input. A Transform whose Syntax field is
the only populated field is reported empty by Transform.IsEmpty of
src/transform.go (which checks only Data and Resources), contradicting
the claim that IsEmpty holds only when every field but the address is
zero; the alternate revision of src/unnamed/part_000 likewise reports a
Transform carrying only the Qri kind tag as empty. -/
theorem transform_isEmpty_ignores_other_fields :
    Transform.IsEmpty { syn := "sql" } = true ∧
    ({ syn := "sql" } : Transform).syn ≠ "" ∧
    TransformB.IsEmpty { qri := KindTransform } = true ∧
    ({ qri := KindTransform } : TransformB).qri ≠ "" := by
  refine ⟨rfl, by decide, rfl, by decide⟩

/- ============ Commit title normalizer (src/dsfs/dataset.go 431-463) ============ -/

/-- strings.LastIndex(s, " ") for a one-character needle, over List Char:
the index of the last occurrence, or -1 when absent. -/
def lastIndexOfChar (c : Char) : List Char → Int
  | [] => -1
  | a :: rest =>
    let r := lastIndexOfChar c rest
    if r ≥ 0 then r + 1 else if a = c then 0 else -1

/-- strings.Index(s, sep) for a one-character needle, over List Char: the
index of the first occurrence, or -1 when absent. -/
def indexOfChar (c : Char) : List Char → Int
  | [] => -1
  | a :: rest =>
    if a = c then 0
    else
      let r := indexOfChar c rest
      if r ≥ 0 then r + 1 else -1

/-- The ellipsis marker appended and prepended by cleanTitleAndMessage. -/
def ellipsisChars : List Char := ['.', '.', '.']

/-- First phase of cleanTitleAndMessage (src/dsfs/dataset.go lines 435-443):
an empty title is replaced by the diff description, or failing that by the
message (which is then cleared). -/
def cleanPhase1 (sTitle sMsg diffDescription : List Char) :
    List Char × List Char :=
  if sTitle = [] ∧ diffDescription ≠ [] then (diffDescription, sMsg)
  else if sTitle = [] then (sMsg, [])
  else (sTitle, sMsg)

/-- The cut index of the second phase (the cutIndex local of the Go code,
lines 446-450): one past the last space within the first 67 characters of
the title when that space sits at a positive index, 66 otherwise. -/
def cutIndexOf (st : List Char) : Nat :=
  if lastIndexOfChar ' ' (st.take 67) > 0
  then (lastIndexOfChar ' ' (st.take 67)).toNat + 1
  else 66

/-- Second phase (lines 444-453): a title longer than 70 is cut at the cut
index; the overflow is prepended to the message behind an ellipsis marker
and a line break, and the ellipsis marker is appended to the cut title. -/
def cleanPhase2 (st sm : List Char) : List Char × List Char :=
  if st.length > 70 then
    (st.take (cutIndexOf st) ++ ellipsisChars,
     ellipsisChars ++ st.drop (cutIndexOf st) ++ '\n' :: sm)
  else (st, sm)

/-- Third phase (lines 454-460): when the first line break sits at a
positive index, the title is cut there and the remainder is prepended to
the message; a line break at index 0 is left in place. -/
def cleanPhase3 (st sm : List Char) : List Char × List Char :=
  if indexOfChar '\n' st > 0 then
    (st.take (indexOfChar '\n' st).toNat,
     st.drop ((indexOfChar '\n' st).toNat + 1) ++ '\n' :: sm)
  else (st, sm)

/-- cleanTitleAndMessage (src/dsfs/dataset.go lines 431-463), as the
composition of its three sequential phases. -/
def cleanTitleAndMessage (sTitle sMsg diffDescription : List Char) :
    List Char × List Char :=
  let p1 := cleanPhase1 sTitle sMsg diffDescription
  let p2 := cleanPhase2 p1.1 p1.2
  cleanPhase3 p2.1 p2.2

theorem lastIndexOfChar_lt_length (c : Char) (l : List Char) :
    lastIndexOfChar c l < (l.length : Int) := by
  induction l with
  | nil => simp [lastIndexOfChar]
  | cons a rest ih =>
    simp only [lastIndexOfChar, List.length_cons]
    split
    · push_cast; omega
    · split <;> push_cast <;> omega

theorem neg_one_le_indexOfChar (c : Char) (l : List Char) :
    -1 ≤ indexOfChar c l := by
  induction l with
  | nil => simp [indexOfChar]
  | cons a rest ih =>
    simp only [indexOfChar]
    split
    · omega
    · split <;> omega

theorem indexOfChar_eq_neg_one (c : Char) (l : List Char)
    (h : indexOfChar c l = -1) : c ∉ l := by
  induction l with
  | nil => simp
  | cons a rest ih =>
    simp only [indexOfChar] at h
    split at h
    · omega
    · next ha =>
      split at h
      · omega
      · next hr =>
        have hge := neg_one_le_indexOfChar c rest
        have : indexOfChar c rest = -1 := by omega
        simp only [List.mem_cons]
        push_neg
        exact ⟨fun hca => ha hca.symm, ih this⟩

theorem indexOfChar_eq_zero (c : Char) (l : List Char)
    (h : indexOfChar c l = 0) : l.head? = some c := by
  cases l with
  | nil => simp [indexOfChar] at h
  | cons a rest =>
    simp only [indexOfChar] at h
    split at h
    · next ha => simp [ha]
    · split at h <;> omega

theorem not_mem_take_indexOfChar (c : Char) (l : List Char) :
    c ∉ l.take (indexOfChar c l).toNat := by
  induction l with
  | nil => simp
  | cons a rest ih =>
    simp only [indexOfChar]
    split
    · simp
    · next ha =>
      split
      · next hr =>
        have : ((indexOfChar c rest) + 1).toNat = (indexOfChar c rest).toNat + 1 := by
          omega
        rw [this]
        simp only [List.take_succ_cons, List.mem_cons]
        push_neg
        exact ⟨fun hca => ha hca.symm, ih⟩
      · simp

theorem cutIndexOf_pos (st : List Char) : 1 ≤ cutIndexOf st := by
  unfold cutIndexOf
  split <;> omega

theorem cutIndexOf_le (st : List Char) (h : st.length > 70) :
    cutIndexOf st ≤ 67 := by
  have h67 : (st.take 67).length = 67 := by
    rw [List.length_take]; omega
  have hlt := lastIndexOfChar_lt_length ' ' (st.take 67)
  rw [h67] at hlt
  unfold cutIndexOf
  split <;> omega

theorem cleanPhase2_head? (st sm : List Char) :
    (cleanPhase2 st sm).1.head? = st.head? := by
  unfold cleanPhase2
  split
  · next h =>
    cases st with
    | nil => simp at h
    | cons a rest =>
      have h1 := cutIndexOf_pos (a :: rest)
      obtain ⟨k, hk⟩ : ∃ k, cutIndexOf (a :: rest) = k + 1 :=
        ⟨cutIndexOf (a :: rest) - 1, by omega⟩
      simp [hk]
  · rfl

theorem cleanPhase2_length_le (st sm : List Char) :
    (cleanPhase2 st sm).1.length ≤ 70 := by
  unfold cleanPhase2
  split
  · next h =>
    have hle := cutIndexOf_le st h
    simp only [List.length_append, List.length_take, ellipsisChars,
      List.length_cons, List.length_nil]
    omega
  · next h =>
    show st.length ≤ 70
    omega

theorem cleanPhase3_length_le (st sm : List Char) :
    (cleanPhase3 st sm).1.length ≤ st.length := by
  unfold cleanPhase3
  split
  · show (st.take _).length ≤ st.length
    simp only [List.length_take]
    omega
  · exact le_refl _

theorem cleanPhase3_no_newline (st sm : List Char)
    (h : st.head? ≠ some '\n') : '\n' ∉ (cleanPhase3 st sm).1 := by
  unfold cleanPhase3
  split
  · next hpos => exact not_mem_take_indexOfChar '\n' st
  · next hpos =>
    have hge := neg_one_le_indexOfChar '\n' st
    rcases (by omega : indexOfChar '\n' st = 0 ∨ indexOfChar '\n' st = -1) with h0 | h1
    · exact absurd (indexOfChar_eq_zero '\n' st h0) h
    · exact indexOfChar_eq_neg_one '\n' st h1

/- ===================== C7 theorems ===================== -/

/-- C7 counterexample: an input title beginning with a line break keeps
that line break in the output title (the third phase only splits at a
break at a positive index), refuting the claim that the produced title
never contains a line break. -/
theorem cleanTitleAndMessage_keeps_leading_linebreak :
    '\n' ∈ (cleanTitleAndMessage ['\n', 'a', 'b'] [] []).1 := by decide

/-- C7 amended: the produced title never exceeds 70 characters, and
contains no line break provided the effective title (after the
empty-title substitutions of the first phase) does not itself begin with
a line break; everything past the cut is moved, behind an ellipsis
marker, to the message. On the claimed input of 100 x characters with
empty message and description, the title is exactly 66 x characters
followed by the ellipsis marker (length 69) and the message is exactly
the ellipsis marker, the remaining 34 x characters and a line break, so
no character of the input is lost. -/
theorem cleanTitleAndMessage_props (t m d : List Char) :
    (cleanTitleAndMessage t m d).1.length ≤ 70 ∧
    ((cleanPhase1 t m d).1.head? ≠ some '\n' →
      '\n' ∉ (cleanTitleAndMessage t m d).1) ∧
    cleanTitleAndMessage (List.replicate 100 'x') [] [] =
      (List.replicate 66 'x' ++ ellipsisChars,
       ellipsisChars ++ List.replicate 34 'x' ++ ['\n']) := by
  refine ⟨?_, ?_, ?_⟩
  case refine_3 =>
    set_option maxRecDepth 4000 in decide
  · unfold cleanTitleAndMessage
    exact le_trans (cleanPhase3_length_le _ _) (cleanPhase2_length_le _ _)
  · intro h
    unfold cleanTitleAndMessage
    apply cleanPhase3_no_newline
    rw [cleanPhase2_head?]
    exact h

/- ============ Shape analyzer (src/dsfs/dataset.go 313-370) ============ -/

/- A decoded body entry value, as the dynamic interface value the entry
reader produces: a scalar, an array, or an object. Lists of children are
inlined as mutual inductives so that the depth recursion is structural. -/
mutual
inductive Val where
  | scalar
  | arr (els : ValList)
  | obj (kvs : ValObjList)
inductive ValList where
  | nil
  | cons (hd : Val) (tl : ValList)
inductive ValObjList where
  | nil
  | cons (key : String) (v : Val) (tl : ValObjList)
end

/- getDepth (src/dsfs/dataset.go lines 350-370). For a container the
running depth variable is incremented, and each element is probed with
the current value of that variable (which the loop may already have
raised for an earlier sibling), keeping the larger result. The list
helpers are the element loops with the running depth as accumulator. -/
mutual
def getDepth : Val → Int → Int
  | .scalar, depth => depth
  | .arr els, depth => getDepthList els (depth + 1)
  | .obj kvs, depth => getDepthObjList kvs (depth + 1)
def getDepthList : ValList → Int → Int
  | .nil, depth => depth
  | .cons el tl, depth =>
    getDepthList tl (if getDepth el depth > depth then getDepth el depth else depth)
def getDepthObjList : ValObjList → Int → Int
  | .nil, depth => depth
  | .cons _ el tl, depth =>
    getDepthObjList tl (if getDepth el depth > depth then getDepth el depth else depth)
end

/-- setDepthAndEntryCount (src/dsfs/dataset.go lines 313-348), with the
external entry reader abstracted as the finite list of entries it yields
before EOF. Returns the (Entries, Depth) pair stored into the Structure:
the loop counts entries and keeps the larger of the running depth
(baseline 1) and getDepth of each entry probed at depth 1. -/
def setDepthAndEntryCount (body : List Val) : Int × Int :=
  let r := body.foldl
    (fun (acc : Int × Int) ent =>
      (acc.1 + 1, if getDepth ent 1 > acc.2 then getDepth ent 1 else acc.2))
    (0, 1)
  r

/- ===================== C9 theorem ===================== -/

/-- C9: evaluation of the embedded shape analyzer. The claimed singly
nested example (one entry holding an object with one nested object)
yields Entries 1 and Depth 3 as the claim states; but an entry holding
two sibling singly-nested objects yields Depth 4, not the
maximum-over-branches 3 the claim describes, because getDepth probes each
later sibling with the running maximum as its base, accumulating sibling
depths. -/
theorem setDepthAndEntryCount_sibling_accumulation :
    setDepthAndEntryCount
      [Val.obj (.cons "a" (.obj (.cons "b" .scalar .nil)) .nil)] = (1, 3) ∧
    setDepthAndEntryCount
      [Val.obj (.cons "a" (.obj (.cons "x" .scalar .nil))
        (.cons "b" (.obj (.cons "y" .scalar .nil)) .nil))] = (1, 4) ∧
    (4 : Int) ≠ 3 := by
  refine ⟨rfl, rfl, by decide⟩

/- ============ Load Engine (src/dsfs/dataset.go 41-73) ============ -/

/-- The outcome of one store.Get followed by fileBytes: either an error or
the bytes read (possibly empty). -/
inductive FetchResult where
  | fetchErr (msg : String)
  | fetched (data : List Nat)
deriving DecidableEq, Repr

/-- The error classes of the Load Engine: a store read failure or a decode
failure. -/
inductive LoadError where
  | storeReadError (msg : String)
  | serializationError (msg : String)
deriving DecidableEq, Repr

/-- Modelled from the spec: the new-revision top-level Dataset type used by
the dsfs layer is outside src; for the load claims only its bound address
and an opaque remainder are observable. -/
structure DatasetL where
  path : String
  payload : String
deriving DecidableEq, Repr

/-- Modelled from the spec: Dataset.Assign of the new revision is outside
src. Per section 4.1, Assign overwrites each field that is non-zero in
the argument, and the argument NewDatasetRef(path) carries only the
path. -/
def datasetAssignPath (ds : DatasetL) (path : String) : DatasetL :=
  if path ≠ "" then { ds with path := path } else ds

/-- Whether the Load Engine treats a first fetch outcome as bad (erroring
or zero bytes), triggering the single retry. -/
def firstFetchBad : FetchResult → Bool
  | .fetchErr _ => true
  | .fetched d => d.isEmpty

/-- The tail of LoadDatasetRefs after the fetch phase: decode the bytes
(UnmarshalDataset, an external decoder passed as a parameter), mapping a
decode failure to a serialization error, and on success bind the
resulting Dataset to the address it was loaded from. -/
def loadDecodePhase (decode : List Nat → Except String DatasetL)
    (path : String) (data : List Nat) : Except LoadError DatasetL :=
  match decode data with
  | .error e => .error (.serializationError e)
  | .ok ds => .ok (datasetAssignPath ds path)

/-- LoadDatasetRefs (src/dsfs/dataset.go lines 43-73): the two potential
store.Get outcomes are passed as get1 and get2 (get2 is consulted only
when the first attempt errors or returns zero bytes); the second
component counts the fetch attempts made. After the retry only the error
is re-checked, so a second fetch that returns zero bytes without error
falls through to the decoder. PackageKeypath (key resolution, repo code
outside src) is an address normalization taken as the identity here. -/
def LoadDatasetRefs (get1 get2 : FetchResult)
    (decode : List Nat → Except String DatasetL) (path : String) :
    Except LoadError DatasetL × Nat :=
  match get1 with
  | .fetched data =>
    if data ≠ [] then (loadDecodePhase decode path data, 1)
    else
      match get2 with
      | .fetchErr e => (.error (.storeReadError e), 2)
      | .fetched d2 => (loadDecodePhase decode path d2, 2)
  | .fetchErr _ =>
    match get2 with
    | .fetchErr e => (.error (.storeReadError e), 2)
    | .fetched d2 => (loadDecodePhase decode path d2, 2)

/- ===================== C4 theorems ===================== -/

/-- A decoder that fails on empty input the way json.Unmarshal does,
used as the concrete instantiation in the C4 counterexample. -/
def decodeFailingOnEmpty : List Nat → Except String DatasetL := fun d =>
  if d = [] then .error "unexpected end of JSON input"
  else .ok { path := "", payload := "decoded" }

/-- Discriminator for the store read error class. -/
def isStoreReadErr : Except LoadError DatasetL → Bool
  | .error (.storeReadError _) => true
  | _ => false

/-- C4 counterexample: when the first fetch errors and the retry returns
zero bytes with no error, the Load Engine does not fail with a store read
error as claimed; the empty bytes fall through to the decoder and the
failure surfaces as a serialization error. -/
theorem loadDatasetRefs_empty_retry_not_store_error :
    (LoadDatasetRefs (.fetchErr "transient failure") (.fetched [])
        decodeFailingOnEmpty "/ds").1
      = .error (.serializationError "unexpected end of JSON input") ∧
    isStoreReadErr (LoadDatasetRefs (.fetchErr "transient failure") (.fetched [])
        decodeFailingOnEmpty "/ds").1 = false := by
  exact ⟨rfl, rfl⟩

/-- C4 amended: the Load Engine fetches once and retries exactly once when
the first attempt errors or returns zero bytes (the fetch count is 2
exactly in that case); it fails with a store read error exactly when the
retry fetch errors — a retry returning zero bytes without error is
passed to the decoder instead, surfacing as a serialization error when
decoding empty bytes fails; decode failures map to serialization errors;
and on success the resulting Dataset is bound to the address it was
loaded from. -/
theorem loadDatasetRefs_amended (g1 g2 : FetchResult)
    (decode : List Nat → Except String DatasetL) (path : String) :
    ((LoadDatasetRefs g1 g2 decode path).2
        = if firstFetchBad g1 then 2 else 1) ∧
    (∀ d, g1 = .fetched d → d ≠ [] →
      LoadDatasetRefs g1 g2 decode path = (loadDecodePhase decode path d, 1)) ∧
    (firstFetchBad g1 = true → ∀ e, g2 = .fetchErr e →
      LoadDatasetRefs g1 g2 decode path = (.error (.storeReadError e), 2)) ∧
    (firstFetchBad g1 = true → ∀ d2, g2 = .fetched d2 →
      LoadDatasetRefs g1 g2 decode path = (loadDecodePhase decode path d2, 2)) ∧
    (∀ data ds, decode data = .ok ds →
      loadDecodePhase decode path data = .ok (datasetAssignPath ds path)) ∧
    (∀ data e, decode data = .error e →
      loadDecodePhase decode path data = .error (.serializationError e)) := by
  refine ⟨?_, ?_, ?_, ?_, ?_, ?_⟩
  · cases g1 with
    | fetchErr e => cases g2 <;> rfl
    | fetched d =>
      cases d with
      | nil => cases g2 <;> rfl
      | cons a t => rfl
  · intro d hg hd
    subst hg
    cases d with
    | nil => exact absurd rfl hd
    | cons a t => rfl
  · intro hbad e hg
    subst hg
    cases g1 with
    | fetchErr e1 => rfl
    | fetched d =>
      cases d with
      | nil => rfl
      | cons a t => simp [firstFetchBad] at hbad
  · intro hbad d2 hg
    subst hg
    cases g1 with
    | fetchErr e1 => rfl
    | fetched d =>
      cases d with
      | nil => rfl
      | cons a t => simp [firstFetchBad] at hbad
  · intro data ds hd
    simp [loadDecodePhase, hd]
  · intro data e hd
    simp [loadDecodePhase, hd]

/- ============ Write Engine (src/dsfs/dataset.go 465-625) ============ -/

/-- Canonical object names used by the Write Engine. The PackageFile
constants live in repo code outside src; only their distinctness is
observable in the embedded functions. -/
def PackageFileDataset : String := "dataset.json"

/-- Canonical meta document name. -/
def PackageFileMeta : String := "meta.json"

/-- Canonical structure document name. -/
def PackageFileStructure : String := "structure.json"

/-- Canonical commit document name. -/
def PackageFileCommit : String := "commit.json"

/-- Canonical transform document name. -/
def PackageFileTransform : String := "transform.json"

/-- Canonical viz document name. -/
def PackageFileViz : String := "viz.json"

/-- Canonical transform script object name. -/
def transformScriptFilename : String := "transform_script"

/-- Canonical viz script object name. -/
def vizScriptFilename : String := "viz_script"

/-- A heap cell for a hydrated new-revision Transform: the fields the
write claims observe. The script blob is opaque; None is the Go nil
Script. Resources pairs each bind name with the bound address of the
referenced dataset. -/
structure TransformCell where
  syn : String := ""
  data : String := ""
  script : Option String := none
  scriptPath : String := ""
  resources : List (String × String) := []
deriving DecidableEq, Repr

/-- A heap cell for a hydrated new-revision Viz. -/
structure VizCell where
  template : String := ""
  script : Option String := none
  scriptPath : String := ""
deriving DecidableEq, Repr

/-- The mutable heap of Transform and Viz objects, indexed by position.
Pointer-valued Go fields are modelled as indices into this heap so that
the in-place ScriptPath assignment of the event loop is an observable
mutation. -/
structure WHeap where
  tcells : List TransformCell := []
  vcells : List VizCell := []
deriving DecidableEq, Repr

/-- A sub-document slot of the top-level dataset: a hydrated value (a
payload, or a heap index for Transform and Viz) or a bare address
reference. -/
inductive SubRef (α : Type) where
  | full (v : α)
  | ref (path : String)
deriving DecidableEq, Repr

/-- Modelled from the spec: the new-revision top-level Dataset type used by
the dsfs layer is outside src. The write claims observe its five
sub-document slots and the body path; Meta, Structure and Commit payloads
are opaque, Transform and Viz are heap indices. -/
structure DatasetW where
  meta : Option (SubRef String) := none
  struc : Option (SubRef String) := none
  commit : Option (SubRef String) := none
  transform : Option (SubRef Nat) := none
  viz : Option (SubRef Nat) := none
  bodyPath : String := ""
deriving DecidableEq, Repr

/-- Modelled from the spec: Dataset.IsEmpty of the new revision is outside
src; per section 4.1 it holds when every field except the address is at
its zero value. -/
def DatasetW.IsEmpty (ds : DatasetW) : Bool :=
  ds.meta == none && ds.struc == none && ds.commit == none &&
  ds.transform == none && ds.viz == none && ds.bodyPath == ""

/-- Modelled from the spec: the defensive copy cp.Assign(ds) at the top of
WriteDataset (lines 471-474); Dataset.Assign of the new revision is
outside src. Per sections 4.1 and 4.6 the copy merges into a fresh
receiver: hydrated Transform and Viz sub-documents are copied into
freshly allocated heap cells (their own Assign merges field values into
the fresh object), and the other slots are value-copied. -/
def copyDataset (H : WHeap) (ds : DatasetW) : WHeap × DatasetW :=
  let tstep :=
    match ds.transform with
    | some (.full i) =>
      ({ H with tcells := H.tcells ++ [H.tcells.getD i {}] },
       some (SubRef.full H.tcells.length))
    | o => (H, o)
  let H1 := tstep.1
  let vstep :=
    match ds.viz with
    | some (.full i) =>
      ({ H1 with vcells := H1.vcells ++ [H1.vcells.getD i {}] },
       some (SubRef.full H1.vcells.length))
    | o => (H1, o)
  (vstep.1, { ds with transform := tstep.2, viz := vstep.2 })

/-- The resource map observed through a Transform slot: the cell's
resources when hydrated, empty for a bare reference or an absent slot
(a reference Transform has a nil Resources map). -/
def transformResources (H : WHeap) : Option (SubRef Nat) → List (String × String)
  | some (.full i) => (H.tcells.getD i {}).resources
  | _ => []

/-- The script blob observed through a Transform slot. -/
def transformScript (H : WHeap) : Option (SubRef Nat) → Option String
  | some (.full i) => (H.tcells.getD i {}).script
  | _ => none

/-- The script blob observed through a Viz slot. -/
def vizScript (H : WHeap) : Option (SubRef Nat) → Option String
  | some (.full i) => (H.vcells.getD i {}).script
  | _ => none

/-- A store interaction of the setup phase: batch creation or a named file
addition. -/
inductive StoreOp where
  | newAdder
  | addFile (name : String)
deriving DecidableEq, Repr

/-- The error classes of WriteDataset relevant to the write claims.
nilScriptEvent stands for the Go nil-pointer crash of a script completion
event arriving while the transform or viz slot is absent (unreachable in
real runs). -/
inductive WriteError where
  | emptyDataset
  | dependencyOrder (key : String)
  | nilScriptEvent
deriving DecidableEq, Repr

/-- The state handed from the setup phase to the event loop: the pending
file counter and the copied dataset. -/
structure WriteSetup where
  fileTasks : Int
  cp : DatasetW
deriving DecidableEq, Repr

/-- The pending-task contribution of the tail of the setup phase (lines
526-561): one task each for a present commit and structure, and for a
present viz either two tasks (script plus the deferred viz document) or
one. -/
def writeSetupTailTasks (H : WHeap) (cp : DatasetW) : Int :=
  (if cp.commit.isSome then 1 else 0) +
  (if cp.struc.isSome then 1 else 0) +
  (if cp.viz.isSome then
    (match vizScript H cp.viz with | some _ => 2 | none => 1)
   else 0)

/-- The store additions of the tail of the setup phase, in source order:
commit, structure, then the viz script or the viz document. -/
def writeSetupTailOps (H : WHeap) (cp : DatasetW) : List StoreOp :=
  (if cp.commit.isSome then [StoreOp.addFile PackageFileCommit] else []) ++
  (if cp.struc.isSome then [StoreOp.addFile PackageFileStructure] else []) ++
  (if cp.viz.isSome then
    (match vizScript H cp.viz with
     | some _ => [StoreOp.addFile vizScriptFilename]
     | none => [StoreOp.addFile PackageFileViz])
   else [])

/-- The tail of the setup phase (lines 526-561): the commit, structure and
viz additions that follow the transform block, each incrementing the
pending counter; a script-carrying viz pre-counts both of its phases. -/
def writeSetupTail (H : WHeap) (cp : DatasetW) (n : Int) (ops : List StoreOp) :
    Except WriteError WriteSetup × List StoreOp :=
  (.ok { fileTasks := n + writeSetupTailTasks H cp, cp := cp },
   ops ++ writeSetupTailOps H cp)

/-- The pending-task contribution of the meta block (lines 487-494). -/
def metaTasks (cp : DatasetW) : Int := if cp.meta.isSome then 1 else 0

/-- The store interactions up to and including the body addition (lines
482-497): the batch creation, the meta document when present, and the
body file. -/
def metaOps (cp : DatasetW) : List StoreOp :=
  if cp.meta.isSome then [StoreOp.newAdder, .addFile PackageFileMeta]
  else [StoreOp.newAdder]

/-- The setup phase of WriteDataset (lines 476-561), recording every store
interaction in order: the empty-dataset rejection happens before the
batch is created; then the meta document (when present) and the body file
are added; then the transform block checks that every resource carries a
bound address — failing with a dependency-order error after the batch
creation and the meta and body additions — and adds either the script
(pre-counting the deferred transform document as a second task) or the
transform document; then commit, structure and viz. -/
def writeSetup (H : WHeap) (cp : DatasetW) (bodyName : String) :
    Except WriteError WriteSetup × List StoreOp :=
  if cp.IsEmpty then (.error .emptyDataset, [])
  else
    if cp.transform.isSome then
      match (transformResources H cp.transform).find? (fun r => r.2 = "") with
      | some r =>
        (.error (.dependencyOrder r.1), metaOps cp ++ [.addFile bodyName])
      | none =>
        match transformScript H cp.transform with
        | some _ =>
          writeSetupTail H cp (metaTasks cp + 1 + 2)
            (metaOps cp ++ [.addFile bodyName, .addFile transformScriptFilename])
        | none =>
          writeSetupTail H cp (metaTasks cp + 1 + 1)
            (metaOps cp ++ [.addFile bodyName, .addFile PackageFileTransform])
    else
      writeSetupTail H cp (metaTasks cp + 1) (metaOps cp ++ [.addFile bodyName])

/-- A completion event of the store adder: the name of the finished file
and its new address. -/
structure AddedEvent where
  name : String
  path : String
deriving DecidableEq, Repr

/-- The state of the completion event consumer (lines 563-620). adds lists
the names of the files the consumer itself adds (the deferred transform
and viz documents and the top-level dataset document); retPath is the
path variable holding the address of the most recent event. -/
structure LoopState where
  fileTasks : Int
  cp : DatasetW
  heap : WHeap
  adds : List String
  retPath : String
deriving DecidableEq, Repr

/-- The outcome of the event consumer: the final state and the number of
fully processed events, finishing normally or crashing on a script event
with an absent slot. -/
inductive LoopResult where
  | finished (st : LoopState) (consumed : Nat)
  | crashed (st : LoopState) (consumed : Nat)
deriving DecidableEq, Repr

/-- Storing a script address into a transform heap cell (the assignment
ds.Transform.ScriptPath = ao.Path of line 582). -/
def setScriptPathT (heap : WHeap) (i : Nat) (p : String) : WHeap :=
  { heap with tcells := heap.tcells.set i { heap.tcells.getD i {} with scriptPath := p } }

/-- Storing a script address into a viz heap cell (line 591). -/
def setScriptPathV (heap : WHeap) (i : Nat) (p : String) : WHeap :=
  { heap with vcells := heap.vcells.set i { heap.vcells.getD i {} with scriptPath := p } }

/-- The switch statement of the event consumer (lines 568-599), in source
case order: the five named sub-documents are replaced in the copy by
references to the event address; the body file event records the body
path; a transform or viz script event stores the script address into the
(copied) cell and adds the deferred transform or viz document — crashing
(Go nil dereference) if the slot is absent; an unrecognized name falls
through. For a script event on a reference-only slot (unreachable on a
real store, where the script is added only for a hydrated value) the
deferred document is still added but the address recorded on the
reference object is not tracked. Returns the updated copy and heap and
the names added by this event. -/
def switchStep (bodyName : String) (ev : AddedEvent) (cp : DatasetW)
    (heap : WHeap) : Option (DatasetW × WHeap × List String) :=
  if ev.name = PackageFileStructure then
    some ({ cp with struc := some (.ref ev.path) }, heap, [])
  else if ev.name = PackageFileTransform then
    some ({ cp with transform := some (.ref ev.path) }, heap, [])
  else if ev.name = PackageFileMeta then
    some ({ cp with meta := some (.ref ev.path) }, heap, [])
  else if ev.name = PackageFileCommit then
    some ({ cp with commit := some (.ref ev.path) }, heap, [])
  else if ev.name = PackageFileViz then
    some ({ cp with viz := some (.ref ev.path) }, heap, [])
  else if ev.name = bodyName then
    some ({ cp with bodyPath := ev.path }, heap, [])
  else if ev.name = transformScriptFilename then
    match cp.transform with
    | some (.full i) => some (cp, setScriptPathT heap i ev.path, [PackageFileTransform])
    | some (.ref _) => some (cp, heap, [PackageFileTransform])
    | none => none
  else if ev.name = vizScriptFilename then
    match cp.viz with
    | some (.full i) => some (cp, setScriptPathV heap i ev.path, [PackageFileViz])
    | some (.ref _) => some (cp, heap, [PackageFileViz])
    | none => none
  else
    some (cp, heap, [])

/-- One iteration of the event consumer: the path variable takes the event
address, the switch runs, the pending counter is decremented, and when it
reaches zero the top-level dataset document is added (the addedDataset
flag of the source is never set, but the counter reaches zero at most
once). -/
def writeStep (bodyName : String) (ev : AddedEvent) (st : LoopState) :
    Option LoopState :=
  match switchStep bodyName ev st.cp st.heap with
  | none => none
  | some (cp2, heap2, extra) =>
    some { fileTasks := st.fileTasks - 1, cp := cp2, heap := heap2,
           adds := if st.fileTasks - 1 = 0
                   then st.adds ++ extra ++ [PackageFileDataset]
                   else st.adds ++ extra,
           retPath := ev.path }

/-- The event consumer loop: processes the completion events in order
until the stream is closed (the list ends) or a step crashes. -/
def writeLoop (bodyName : String) : List AddedEvent → LoopState → LoopResult
  | [], st => .finished st 0
  | ev :: rest, st =>
    match writeStep bodyName ev st with
    | none => .crashed st 0
    | some st2 =>
      match writeLoop bodyName rest st2 with
      | .finished st3 k => .finished st3 (k + 1)
      | .crashed st3 k => .crashed st3 (k + 1)

/-- The initial state of the event consumer. -/
def initLoopState (su : WriteSetup) (H : WHeap) : LoopState :=
  { fileTasks := su.fileTasks, cp := su.cp, heap := H, adds := [], retPath := "" }

/-- The observable outcome of WriteDataset: the returned key or error, the
final heap, the setup-phase store interactions and the loop-phase file
additions. -/
structure WriteOutcome where
  result : Except WriteError String
  heap : WHeap
  ops : List StoreOp
  adds : List String
deriving Repr

/-- WriteDataset (src/dsfs/dataset.go lines 469-625): copy the dataset,
run the setup phase, then consume the completion event stream; a finished
run returns the path of the last event (on a real store the top-level
document, added last, completes last). -/
def WriteDataset (H : WHeap) (ds : DatasetW) (bodyName : String)
    (evs : List AddedEvent) : WriteOutcome :=
  -- in-memory JSON encoding (json.Marshal / JSONFile) is modelled as
  -- total: its failure paths abort the write before the corresponding
  -- addition and never commit the top-level document

  let c := copyDataset H ds
  match writeSetup c.1 c.2 bodyName with
  | (.error e, ops) => { result := .error e, heap := c.1, ops := ops, adds := [] }
  | (.ok su, ops) =>
    match writeLoop bodyName evs (initLoopState su c.1) with
    | .finished st _ =>
      { result := .ok st.retPath, heap := st.heap, ops := ops, adds := st.adds }
    | .crashed st _ =>
      { result := .error .nilScriptEvent, heap := st.heap, ops := ops, adds := st.adds }

/- ============ Write Engine lemmas ============ -/

theorem take_set_of_le {α : Type} (l : List α) (i n : Nat) (x : α)
    (h : n ≤ i) : (l.set i x).take n = l.take n := by
  induction l generalizing i n with
  | nil => simp
  | cons a t ih =>
    cases i with
    | zero =>
      have : n = 0 := by omega
      subst this
      simp
    | succ i' =>
      cases n with
      | zero => rfl
      | succ n' =>
        simp only [List.set, List.take]
        rw [ih i' n' (by omega)]

theorem getLastD_cons {α : Type} (a d : α) (l : List α) :
    ((a :: l).getLast?).getD d = (l.getLast?).getD a := by
  cases l with
  | nil => rfl
  | cons b t => rw [List.getLast?_cons_cons]; rfl

theorem switchStep_extra_cases (bodyName : String) (ev : AddedEvent)
    (cp cp2 : DatasetW) (heap heap2 : WHeap) (extra : List String)
    (h : switchStep bodyName ev cp heap = some (cp2, heap2, extra)) :
    extra = [] ∨ extra = [PackageFileTransform] ∨ extra = [PackageFileViz] := by
  unfold switchStep at h
  split_ifs at h <;>
    first
      | (injection h with h; rw [Prod.ext_iff, Prod.ext_iff] at h; tauto)
      | (rcases hct : cp.transform with _ | v
         · rw [hct] at h; cases h
         · rcases v with i | p <;> rw [hct] at h <;>
             (injection h with h; rw [Prod.ext_iff, Prod.ext_iff] at h; tauto))
      | (rcases hcv : cp.viz with _ | v
         · rw [hcv] at h; cases h
         · rcases v with i | p <;> rw [hcv] at h <;>
             (injection h with h; rw [Prod.ext_iff, Prod.ext_iff] at h; tauto))

theorem dataset_not_mem_extra (extra : List String)
    (h : extra = [] ∨ extra = [PackageFileTransform] ∨ extra = [PackageFileViz]) :
    PackageFileDataset ∉ extra := by
  rcases h with h | h | h <;> subst h <;> decide

theorem writeStep_spec (bodyName : String) (ev : AddedEvent)
    (st st2 : LoopState) (h : writeStep bodyName ev st = some st2) :
    st2.fileTasks = st.fileTasks - 1 ∧
    st2.retPath = ev.path ∧
    (PackageFileDataset ∈ st2.adds ↔
      (PackageFileDataset ∈ st.adds ∨ st.fileTasks = 1)) := by
  unfold writeStep at h
  cases hs : switchStep bodyName ev st.cp st.heap with
  | none => rw [hs] at h; cases h
  | some t =>
    rw [hs] at h
    obtain ⟨cp2, heap2, extra⟩ := t
    have hx := dataset_not_mem_extra extra
      (switchStep_extra_cases bodyName ev st.cp cp2 st.heap heap2 extra hs)
    injection h with h
    subst h
    refine ⟨rfl, rfl, ?_⟩
    by_cases ht : st.fileTasks - 1 = 0
    · have ht1 : st.fileTasks = 1 := by omega
      simp [ht, List.mem_append, ht1]
    · have ht1 : st.fileTasks ≠ 1 := by omega
      simp [ht, List.mem_append, hx, ht1]

theorem writeLoop_cons_none (bodyName : String) (ev : AddedEvent)
    (rest : List AddedEvent) (st : LoopState)
    (h : writeStep bodyName ev st = none) :
    writeLoop bodyName (ev :: rest) st = .crashed st 0 := by
  simp only [writeLoop, h]

theorem writeLoop_cons_some (bodyName : String) (ev : AddedEvent)
    (rest : List AddedEvent) (st st2 : LoopState)
    (h : writeStep bodyName ev st = some st2) :
    writeLoop bodyName (ev :: rest) st =
      (match writeLoop bodyName rest st2 with
       | .finished st3 k => .finished st3 (k + 1)
       | .crashed st3 k => .crashed st3 (k + 1)) := by
  simp only [writeLoop, h]

theorem writeLoop_invariant (bodyName : String) (evs : List AddedEvent) :
    ∀ st : LoopState,
    (match writeLoop bodyName evs st with
     | .finished st' k =>
        k = evs.length ∧
        st'.fileTasks = st.fileTasks - k ∧
        st'.retPath = ((evs.map AddedEvent.path).getLast?).getD st.retPath ∧
        (PackageFileDataset ∈ st'.adds ↔
          (PackageFileDataset ∈ st.adds ∨
            (1 ≤ st.fileTasks ∧ st.fileTasks ≤ (k : Int))))
     | .crashed st' k =>
        k < evs.length ∧
        st'.fileTasks = st.fileTasks - k ∧
        (PackageFileDataset ∈ st'.adds ↔
          (PackageFileDataset ∈ st.adds ∨
            (1 ≤ st.fileTasks ∧ st.fileTasks ≤ (k : Int))))) := by
  induction evs with
  | nil =>
    intro st
    have hred : writeLoop bodyName [] st = .finished st 0 := rfl
    rw [hred]
    refine ⟨rfl, by push_cast; omega, by simp, ?_⟩
    constructor
    · exact fun hm => Or.inl hm
    · rintro (hm | hb)
      · exact hm
      · exfalso; omega
  | cons ev rest ih =>
    intro st
    cases hstep : writeStep bodyName ev st with
    | none =>
      rw [writeLoop_cons_none bodyName ev rest st hstep]
      refine ⟨by simp, by push_cast; omega, ?_⟩
      constructor
      · exact fun hm => Or.inl hm
      · rintro (hm | hb)
        · exact hm
        · exfalso; omega
    | some st2 =>
      obtain ⟨htasks, hret, hmem⟩ := writeStep_spec bodyName ev st st2 hstep
      have hrec := ih st2
      rw [writeLoop_cons_some bodyName ev rest st st2 hstep]
      cases hloop : writeLoop bodyName rest st2 with
      | finished st3 k =>
        rw [hloop] at hrec
        obtain ⟨hk, ht3, hr3, hm3⟩ := hrec
        refine ⟨by simp [hk], by rw [ht3, htasks]; push_cast; ring, ?_, ?_⟩
        · rw [List.map_cons, getLastD_cons, hr3, hret]
        · rw [hm3, hmem, htasks]
          constructor
          · rintro ((hm | h1) | hb)
            · exact Or.inl hm
            · exact Or.inr (by omega)
            · exact Or.inr (by push_cast at hb ⊢; omega)
          · rintro (hm | hb)
            · exact Or.inl (Or.inl hm)
            · rcases (by push_cast at hb ⊢; omega :
                st.fileTasks = 1 ∨
                  (1 ≤ st.fileTasks - 1 ∧ st.fileTasks - 1 ≤ (k : Int)))
                with h1 | h2
              · exact Or.inl (Or.inr h1)
              · exact Or.inr h2
      | crashed st3 k =>
        rw [hloop] at hrec
        obtain ⟨hk, ht3, hm3⟩ := hrec
        refine ⟨by simp; omega, by rw [ht3, htasks]; push_cast; ring, ?_⟩
        rw [hm3, hmem, htasks]
        constructor
        · rintro ((hm | h1) | hb)
          · exact Or.inl hm
          · exact Or.inr (by omega)
          · exact Or.inr (by push_cast at hb ⊢; omega)
        · rintro (hm | hb)
          · exact Or.inl (Or.inl hm)
          · rcases (by push_cast at hb ⊢; omega :
              st.fileTasks = 1 ∨
                (1 ≤ st.fileTasks - 1 ∧ st.fileTasks - 1 ≤ (k : Int)))
              with h1 | h2
            · exact Or.inl (Or.inr h1)
            · exact Or.inr h2

/-- The heap cells that existed before a write are unchanged: the old heap
is a prefix of the new one, cell for cell. -/
def heapPrefixEq (H0 H : WHeap) : Prop :=
  H.tcells.take H0.tcells.length = H0.tcells ∧
  H.vcells.take H0.vcells.length = H0.vcells

/-- The hydrated slots of the working copy point only at cells allocated
after the original heap: the event loop can mutate nothing the caller
reaches. -/
def cpIdsFresh (H0 : WHeap) (cp : DatasetW) : Prop :=
  (∀ i, cp.transform = some (.full i) → H0.tcells.length ≤ i) ∧
  (∀ i, cp.viz = some (.full i) → H0.vcells.length ≤ i)

theorem switchStep_frame (H0 : WHeap) (bodyName : String) (ev : AddedEvent)
    (cp cp2 : DatasetW) (heap heap2 : WHeap) (extra : List String)
    (hfresh : cpIdsFresh H0 cp) (hpre : heapPrefixEq H0 heap)
    (h : switchStep bodyName ev cp heap = some (cp2, heap2, extra)) :
    cpIdsFresh H0 cp2 ∧ heapPrefixEq H0 heap2 := by
  unfold switchStep at h
  split_ifs at h
  · simp only [Option.some.injEq, Prod.mk.injEq] at h
    obtain ⟨h1, h2, h3⟩ := h
    subst h1; subst h2
    exact ⟨⟨fun i hi => hfresh.1 i hi, fun i hi => hfresh.2 i hi⟩, hpre⟩
  · simp only [Option.some.injEq, Prod.mk.injEq] at h
    obtain ⟨h1, h2, h3⟩ := h
    subst h1; subst h2
    refine ⟨⟨fun i hi => ?_, fun i hi => hfresh.2 i hi⟩, hpre⟩
    simp at hi
  · simp only [Option.some.injEq, Prod.mk.injEq] at h
    obtain ⟨h1, h2, h3⟩ := h
    subst h1; subst h2
    exact ⟨⟨fun i hi => hfresh.1 i hi, fun i hi => hfresh.2 i hi⟩, hpre⟩
  · simp only [Option.some.injEq, Prod.mk.injEq] at h
    obtain ⟨h1, h2, h3⟩ := h
    subst h1; subst h2
    exact ⟨⟨fun i hi => hfresh.1 i hi, fun i hi => hfresh.2 i hi⟩, hpre⟩
  · simp only [Option.some.injEq, Prod.mk.injEq] at h
    obtain ⟨h1, h2, h3⟩ := h
    subst h1; subst h2
    refine ⟨⟨fun i hi => hfresh.1 i hi, fun i hi => ?_⟩, hpre⟩
    simp at hi
  · simp only [Option.some.injEq, Prod.mk.injEq] at h
    obtain ⟨h1, h2, h3⟩ := h
    subst h1; subst h2
    exact ⟨⟨fun i hi => hfresh.1 i hi, fun i hi => hfresh.2 i hi⟩, hpre⟩
  · rcases hct : cp.transform with _ | tv
    · rw [hct] at h; cases h
    · rcases tv with i | p <;> rw [hct] at h <;>
        simp only [Option.some.injEq, Prod.mk.injEq] at h <;>
        obtain ⟨h1, h2, h3⟩ := h
      · subst h1; subst h2
        refine ⟨hfresh, ?_, hpre.2⟩
        have hle : H0.tcells.length ≤ i := hfresh.1 i hct
        show (heap.tcells.set i _).take H0.tcells.length = H0.tcells
        rw [take_set_of_le heap.tcells i H0.tcells.length _ hle]
        exact hpre.1
      · subst h1; subst h2
        exact ⟨hfresh, hpre⟩
  · rcases hcv : cp.viz with _ | vv
    · rw [hcv] at h; cases h
    · rcases vv with i | p <;> rw [hcv] at h <;>
        simp only [Option.some.injEq, Prod.mk.injEq] at h <;>
        obtain ⟨h1, h2, h3⟩ := h
      · subst h1; subst h2
        refine ⟨hfresh, hpre.1, ?_⟩
        have hle : H0.vcells.length ≤ i := hfresh.2 i hcv
        show (heap.vcells.set i _).take H0.vcells.length = H0.vcells
        rw [take_set_of_le heap.vcells i H0.vcells.length _ hle]
        exact hpre.2
      · subst h1; subst h2
        exact ⟨hfresh, hpre⟩
  · simp only [Option.some.injEq, Prod.mk.injEq] at h
    obtain ⟨h1, h2, h3⟩ := h
    subst h1; subst h2
    exact ⟨hfresh, hpre⟩

theorem writeStep_frame (H0 : WHeap) (bodyName : String) (ev : AddedEvent)
    (st st2 : LoopState) (h : writeStep bodyName ev st = some st2)
    (hfresh : cpIdsFresh H0 st.cp) (hpre : heapPrefixEq H0 st.heap) :
    cpIdsFresh H0 st2.cp ∧ heapPrefixEq H0 st2.heap := by
  unfold writeStep at h
  cases hs : switchStep bodyName ev st.cp st.heap with
  | none => rw [hs] at h; cases h
  | some t =>
    obtain ⟨cp2, heap2, extra⟩ := t
    rw [hs] at h
    injection h with h
    subst h
    exact switchStep_frame H0 bodyName ev st.cp cp2 st.heap heap2 extra hfresh hpre hs

theorem writeLoop_frame (H0 : WHeap) (bodyName : String)
    (evs : List AddedEvent) :
    ∀ st : LoopState, cpIdsFresh H0 st.cp → heapPrefixEq H0 st.heap →
    (match writeLoop bodyName evs st with
     | .finished st' _ => heapPrefixEq H0 st'.heap
     | .crashed st' _ => heapPrefixEq H0 st'.heap) := by
  induction evs with
  | nil =>
    intro st hf hp
    have hred : writeLoop bodyName [] st = .finished st 0 := rfl
    rw [hred]
    exact hp
  | cons ev rest ih =>
    intro st hf hp
    cases hstep : writeStep bodyName ev st with
    | none =>
      rw [writeLoop_cons_none bodyName ev rest st hstep]
      exact hp
    | some st2 =>
      rw [writeLoop_cons_some bodyName ev rest st st2 hstep]
      obtain ⟨hf2, hp2⟩ := writeStep_frame H0 bodyName ev st st2 hstep hf hp
      have hrec := ih st2 hf2 hp2
      cases hloop : writeLoop bodyName rest st2 with
      | finished st3 k => rw [hloop] at hrec; exact hrec
      | crashed st3 k => rw [hloop] at hrec; exact hrec

theorem copyDataset_frame (H : WHeap) (ds : DatasetW) :
    heapPrefixEq H (copyDataset H ds).1 ∧ cpIdsFresh H (copyDataset H ds).2 := by
  rcases hdt : ds.transform with _ | (j | p) <;>
    rcases hdv : ds.viz with _ | (j2 | p2) <;>
    · refine ⟨⟨?_, ?_⟩, fun i hi => ?_, fun i hi => ?_⟩
      · simp [copyDataset, hdt, hdv, heapPrefixEq]
      · simp [copyDataset, hdt, hdv, heapPrefixEq]
      · simp [copyDataset, hdt, hdv] at hi ⊢ <;> omega
      · simp [copyDataset, hdt, hdv] at hi ⊢ <;> omega

theorem writeSetupTailTasks_nonneg (H : WHeap) (cp : DatasetW) :
    0 ≤ writeSetupTailTasks H cp := by
  unfold writeSetupTailTasks
  cases hvs : vizScript H cp.viz <;> simp only [hvs] <;> split_ifs <;> omega

theorem metaTasks_nonneg (cp : DatasetW) : 0 ≤ metaTasks cp := by
  unfold metaTasks
  split_ifs <;> omega

theorem writeSetup_ok (H : WHeap) (cp : DatasetW) (bodyName : String)
    (su : WriteSetup) (ops : List StoreOp)
    (h : writeSetup H cp bodyName = (.ok su, ops)) :
    su.cp = cp ∧ 1 ≤ su.fileTasks := by
  have hm := metaTasks_nonneg cp
  have htl := writeSetupTailTasks_nonneg H cp
  unfold writeSetup at h
  split_ifs at h
  · simp at h
  · cases hf : (transformResources H cp.transform).find? (fun r => r.2 = "") <;>
      simp only [hf] at h
    · cases hsc : transformScript H cp.transform <;> simp only [hsc] at h
      · unfold writeSetupTail at h
        simp only [Prod.mk.injEq, Except.ok.injEq] at h
        obtain ⟨h1, h2⟩ := h
        subst h1
        refine ⟨rfl, ?_⟩
        show 1 ≤ metaTasks cp + 1 + 1 + writeSetupTailTasks H cp
        omega
      · unfold writeSetupTail at h
        simp only [Prod.mk.injEq, Except.ok.injEq] at h
        obtain ⟨h1, h2⟩ := h
        subst h1
        refine ⟨rfl, ?_⟩
        show 1 ≤ metaTasks cp + 1 + 2 + writeSetupTailTasks H cp
        omega
    · simp at h
  · unfold writeSetupTail at h
    simp only [Prod.mk.injEq, Except.ok.injEq] at h
    obtain ⟨h1, h2⟩ := h
    subst h1
    refine ⟨rfl, ?_⟩
    show 1 ≤ metaTasks cp + 1 + writeSetupTailTasks H cp
    omega

/- ===================== C6 theorem ===================== -/

/-- C6: WriteDataset never mutates the caller side. The defensive copy
allocates fresh heap cells for the hydrated Transform and Viz
sub-documents, and the event loop (including the script-path assignments
of the two-phase cases) writes only to those fresh cells, so every heap
cell that existed before the call — everything reachable from the caller
dataset, script paths included — is unchanged afterwards, on every event
stream and in both the error and success paths. -/
theorem writeDataset_preserves_heap (H : WHeap) (ds : DatasetW)
    (bodyName : String) (evs : List AddedEvent) :
    (WriteDataset H ds bodyName evs).heap.tcells.take H.tcells.length
        = H.tcells ∧
    (WriteDataset H ds bodyName evs).heap.vcells.take H.vcells.length
        = H.vcells := by
  obtain ⟨hpre, hfresh⟩ := copyDataset_frame H ds
  simp only [WriteDataset]
  rcases hw : writeSetup (copyDataset H ds).1 (copyDataset H ds).2 bodyName
    with ⟨res, ops⟩
  cases res with
  | error e => exact hpre
  | ok su =>
    obtain ⟨hcp, _⟩ :=
      writeSetup_ok (copyDataset H ds).1 (copyDataset H ds).2 bodyName su ops hw
    have hfr : cpIdsFresh H (initLoopState su (copyDataset H ds).1).cp := by
      show cpIdsFresh H su.cp
      rw [hcp]
      exact hfresh
    have hloopf := writeLoop_frame H bodyName evs
      (initLoopState su (copyDataset H ds).1) hfr hpre
    cases hl : writeLoop bodyName evs (initLoopState su (copyDataset H ds).1) with
    | finished st k =>
      rw [hl] at hloopf
      simp only [hl]
      exact hloopf
    | crashed st k =>
      rw [hl] at hloopf
      simp only [hl]
      exact hloopf

/- ===================== C5 theorems ===================== -/

/-- Discriminator for the dependency-order (unbound resource) error. -/
def isDependencyOrderErr : Except WriteError String → Bool
  | .error (.dependencyOrder _) => true
  | _ => false

/-- C5 counterexample: a dataset whose Transform carries a resource with an
empty address does fail WriteDataset with the dependency-order error, but
only after the batch has been created and the body file added — the
recorded store interactions are non-empty, refuting the claim that the
write never contacts the store in this case. -/
theorem writeDataset_unbound_resource_store_contact :
    (WriteDataset ⟨[{ resources := [("a", "")] }], []⟩
        { transform := some (.full 0) } "body.csv" []).result
      = .error (.dependencyOrder "a") ∧
    (WriteDataset ⟨[{ resources := [("a", "")] }], []⟩
        { transform := some (.full 0) } "body.csv" []).ops
      = [.newAdder, .addFile "body.csv"] := by
  exact ⟨rfl, rfl⟩

theorem copyDataset_transform_full (H : WHeap) (ds : DatasetW) (i : Nat)
    (hdt : ds.transform = some (.full i)) :
    (copyDataset H ds).2.transform = some (.full H.tcells.length) ∧
    (copyDataset H ds).1.tcells = H.tcells ++ [H.tcells.getD i {}] ∧
    (copyDataset H ds).2.meta = ds.meta ∧
    (copyDataset H ds).2.IsEmpty = false := by
  rcases hdv : ds.viz with _ | (j | p) <;>
    simp [copyDataset, hdt, hdv, DatasetW.IsEmpty]

theorem writeSetup_unbound (H2 : WHeap) (cp : DatasetW) (bodyName : String)
    (hti : cp.transform.isSome = true)
    (hres : (transformResources H2 cp.transform).any (fun r => r.2 = "") = true)
    (hne : cp.IsEmpty = false) :
    ∃ key, writeSetup H2 cp bodyName =
      (.error (.dependencyOrder key), metaOps cp ++ [.addFile bodyName]) := by
  unfold writeSetup
  simp only [hne, Bool.false_eq_true, if_false, hti, if_true]
  cases hf : (transformResources H2 cp.transform).find? (fun r => r.2 = "") with
  | none =>
    exfalso
    rw [List.find?_eq_none] at hf
    rw [List.any_eq_true] at hres
    obtain ⟨x, hx, hpx⟩ := hres
    exact absurd hpx (by simpa using hf x hx)
  | some r =>
    exact ⟨r.1, rfl⟩

/-- C5 amended: an unbound Transform resource does make WriteDataset fail
with the dependency-order error before any completion event is consumed
and before the transform, commit, structure, viz or top-level documents
are added — but not before all store contact: the batch has already been
created and the meta document (when present) and the body file have
already been added when the error is returned. -/
theorem writeDataset_unbound_resource_amended (H : WHeap) (ds : DatasetW)
    (bodyName : String) (evs : List AddedEvent)
    (h : (transformResources H ds.transform).any (fun r => r.2 = "") = true) :
    isDependencyOrderErr (WriteDataset H ds bodyName evs).result = true ∧
    (WriteDataset H ds bodyName evs).ops
      = metaOps (copyDataset H ds).2 ++ [.addFile bodyName] ∧
    (WriteDataset H ds bodyName evs).adds = [] := by
  rcases hdt : ds.transform with _ | (i | p)
  · rw [hdt] at h; simp [transformResources] at h
  · obtain ⟨hct, htc, hmeta, hne⟩ := copyDataset_transform_full H ds i hdt
    have hti : (copyDataset H ds).2.transform.isSome = true := by
      rw [hct]; rfl
    have hres : (transformResources (copyDataset H ds).1
        (copyDataset H ds).2.transform).any (fun r => r.2 = "") = true := by
      rw [hct]
      show ((copyDataset H ds).1.tcells.getD H.tcells.length {}).resources.any _ = true
      rw [htc]
      rw [hdt] at h
      have : (H.tcells ++ [H.tcells.getD i {}]).getD H.tcells.length {}
          = H.tcells.getD i {} := by simp
      rw [this]
      exact h
    obtain ⟨key, hset⟩ := writeSetup_unbound (copyDataset H ds).1
      (copyDataset H ds).2 bodyName hti hres hne
    simp [WriteDataset, hset, isDependencyOrderErr]
  · rw [hdt] at h; simp [transformResources] at h

/-- Witness for the amended C5 theorem: the concrete unbound-resource
dataset of the counterexample yields the dependency-order error with
exactly the batch creation and the body addition as store contact. -/
theorem writeDataset_unbound_resource_amended_witness :
    isDependencyOrderErr (WriteDataset ⟨[{ resources := [("a", "")] }], []⟩
        { transform := some (.full 0) } "body.csv"
        [⟨"x", "/x"⟩]).result = true ∧
    (WriteDataset ⟨[{ resources := [("a", "")] }], []⟩
        { transform := some (.full 0) } "body.csv" [⟨"x", "/x"⟩]).ops
      = metaOps (copyDataset ⟨[{ resources := [("a", "")] }], []⟩
          { transform := some (.full 0) }).2 ++ [.addFile "body.csv"] ∧
    (WriteDataset ⟨[{ resources := [("a", "")] }], []⟩
        { transform := some (.full 0) } "body.csv" [⟨"x", "/x"⟩]).adds = [] := by
  exact writeDataset_unbound_resource_amended ⟨[{ resources := [("a", "")] }], []⟩
    { transform := some (.full 0) } "body.csv" [⟨"x", "/x"⟩] (by decide)

/- ===================== C3 theorem ===================== -/

/-- C3: the top-level document is committed only once the pending-file
counter reaches zero. The counter starts at the number of sub-document
additions (two for each script-carrying Transform or Viz, pre-counting
the deferred second phase) and is decremented once per completion event;
in a finished run the top-level document is among the loop
additions exactly when all pending completions arrived, in a crashed run
exactly when they arrived before the crash, and with fewer completions
than pending additions (a failed sub-document write) it is never added.
On success the returned key is the address of the final completion event
— the own completion event of the top-level document, which on a real store is the last
outstanding one. -/
theorem writeDataset_toplevel_gating (H : WHeap) (ds : DatasetW)
    (bodyName : String) (evs : List AddedEvent) (su : WriteSetup)
    (ops : List StoreOp)
    (hsu : writeSetup (copyDataset H ds).1 (copyDataset H ds).2 bodyName
      = (.ok su, ops)) :
    1 ≤ su.fileTasks ∧
    (∀ st' k,
      writeLoop bodyName evs (initLoopState su (copyDataset H ds).1)
          = .finished st' k →
      (PackageFileDataset ∈ st'.adds ↔ su.fileTasks ≤ (evs.length : Int))) ∧
    (∀ st' k,
      writeLoop bodyName evs (initLoopState su (copyDataset H ds).1)
          = .crashed st' k →
      (PackageFileDataset ∈ st'.adds ↔ su.fileTasks ≤ (k : Int))) ∧
    ((evs.length : Int) < su.fileTasks →
      ∀ st' k,
        (writeLoop bodyName evs (initLoopState su (copyDataset H ds).1)
            = .finished st' k ∨
         writeLoop bodyName evs (initLoopState su (copyDataset H ds).1)
            = .crashed st' k) →
        PackageFileDataset ∉ st'.adds) ∧
    (∀ dsEv p,
      (WriteDataset H ds bodyName (evs ++ [dsEv])).result = .ok p →
      p = dsEv.path) := by
  obtain ⟨-, hpos⟩ :=
    writeSetup_ok (copyDataset H ds).1 (copyDataset H ds).2 bodyName su ops hsu
  have hinit_tasks :
      (initLoopState su (copyDataset H ds).1).fileTasks = su.fileTasks := rfl
  have hinit_adds : (initLoopState su (copyDataset H ds).1).adds = [] := rfl
  refine ⟨hpos, ?_, ?_, ?_, ?_⟩
  · intro st' k hl
    have hinv := writeLoop_invariant bodyName evs
      (initLoopState su (copyDataset H ds).1)
    rw [hl] at hinv
    obtain ⟨hk, -, -, hm⟩ := hinv
    rw [hm, hinit_adds, hinit_tasks]
    constructor
    · rintro (h0 | ⟨-, hle⟩)
      · exact absurd h0 (List.not_mem_nil _)
      · omega
    · intro hle
      exact Or.inr ⟨hpos, by omega⟩
  · intro st' k hl
    have hinv := writeLoop_invariant bodyName evs
      (initLoopState su (copyDataset H ds).1)
    rw [hl] at hinv
    obtain ⟨-, -, hm⟩ := hinv
    rw [hm, hinit_adds, hinit_tasks]
    constructor
    · rintro (h0 | ⟨-, hle⟩)
      · exact absurd h0 (List.not_mem_nil _)
      · omega
    · intro hle
      exact Or.inr ⟨hpos, by omega⟩
  · intro hlt st' k hor
    have hinv := writeLoop_invariant bodyName evs
      (initLoopState su (copyDataset H ds).1)
    rcases hor with hl | hl <;> rw [hl] at hinv
    · obtain ⟨hk, -, -, hm⟩ := hinv
      rw [hm, hinit_adds, hinit_tasks]
      rintro (h0 | ⟨-, hle⟩)
      · exact absurd h0 (List.not_mem_nil _)
      · omega
    · obtain ⟨hk, -, hm⟩ := hinv
      rw [hm, hinit_adds, hinit_tasks]
      rintro (h0 | ⟨-, hle⟩)
      · exact absurd h0 (List.not_mem_nil _)
      · omega
  · intro dsEv p hok
    rw [WriteDataset.eq_def] at hok
    simp only [hsu] at hok
    cases hl : writeLoop bodyName (evs ++ [dsEv])
        (initLoopState su (copyDataset H ds).1) with
    | finished st' k =>
      simp only [hl] at hok
      have hinv := writeLoop_invariant bodyName (evs ++ [dsEv])
        (initLoopState su (copyDataset H ds).1)
      rw [hl] at hinv
      obtain ⟨-, -, hr, -⟩ := hinv
      simp only [Except.ok.injEq] at hok
      rw [← hok, hr]
      simp
    | crashed st' k =>
      simp only [hl] at hok
      cases hok

/-- Witness for the C3 theorem: a dataset carrying only a commit sets up
two pending additions (body and commit); after their two completion
events and the completion event of the top-level document itself, the
returned key is the address of the top-level document. -/
theorem writeDataset_toplevel_gating_witness :
    (1 : Int) ≤ ({ fileTasks := 2, cp := { commit := some (.full "c") } } : WriteSetup).fileTasks ∧
    ("/d" : String) = "/d" := by
  have h := writeDataset_toplevel_gating ⟨[], []⟩
    { commit := some (.full "c") } "body.csv"
    [⟨"body.csv", "/b"⟩, ⟨PackageFileCommit, "/c"⟩]
    { fileTasks := 2, cp := { commit := some (.full "c") } }
    [StoreOp.newAdder, .addFile "body.csv", .addFile PackageFileCommit] rfl
  exact ⟨h.1, h.2.2.2.2 ⟨PackageFileDataset, "/d"⟩ "/d" rfl⟩
